import Mathlib

/-!
Verification of the Canvas MCP server core against its specification.

The development shallowly embeds the TypeScript source:
- JavaScript strings used by the security layer are modelled as `List Char`
  (`Str`); domain strings such as workflow states use Lean `String`.
- ISO date strings are modelled as integer epoch milliseconds (`Int`); a
  field that is `null`, `undefined` or the empty string (all falsy and all
  treated alike by the code paths modelled here) is `none`.
- JSON fields where the code distinguishes `undefined` from `null`
  (the strict `!== null` checks in getCourseGrades) are modelled as
  `Option (Option α)`: `none` is an absent field (undefined),
  `some none` is an explicit `null`, `some (some v)` is a value.
- Fallible fetches are values of an outcome type; thrown errors are
  explicit constructors, and functions that catch them are total.
-/

namespace CanvasMCP

/-- Character lists standing for JavaScript strings in the HTTP layer. -/
abbrev Str := List Char

/-- Conversion from a Lean string literal to the `Str` model. -/
def strL (s : String) : Str := s.toList

/-- Model of the JavaScript test `x !== null` on a field that may be
absent (`none`), explicitly null (`some none`) or present
(`some (some v)`): only an explicit null fails the test. -/
def jsNeNull : Option (Option α) → Bool
  | some none => false
  | _ => true

/-- Field carries an actual (neither absent nor null) value. -/
def carriesValue : Option (Option α) → Bool
  | some (some _) => true
  | _ => false

/-- Model of the JavaScript nullish coalescing chain
`x ?? y ?? null` used by the grade normalization. -/
def nullish2 (x y : Option (Option α)) : Option α :=
  match x with
  | some (some v) => some v
  | _ =>
    match y with
    | some (some v) => some v
    | _ => none

theorem jsNeNull_eq_false {α : Type} (x : Option (Option α)) :
    jsNeNull x = false ↔ x = some none := by
  rcases x with _ | (_ | v) <;> simp [jsNeNull]

/- ## canvas-client.ts: listAssignments -/

/-- Raw submission object as fetched from the upstream API
(interface RawSubmission in listAssignments). -/
structure RawSubmission where
  workflow_state : String
  submitted_at : Option Int
  missing : Option Bool
  late : Option Bool
deriving DecidableEq, Repr

/-- Raw assignment object as fetched from the upstream API
(interface RawAssignment in listAssignments). -/
structure RawAssignment where
  id : Int
  name : String
  due_at : Option Int
  unlock_at : Option Int
  lock_at : Option Int
  points_possible : Option Int
  submission_types : List String
  submission : Option RawSubmission
deriving DecidableEq, Repr

/-- The status_filter argument of listAssignments. -/
inductive StatusFilter where
  | all
  | missing
  | unsubmitted
  | submitted
deriving DecidableEq, Repr

/-- Model of `submission?.submitted_at !== null && submission?.submitted_at !== undefined`. -/
def hasSubmittedAt : Option RawSubmission → Bool
  | some s => s.submitted_at.isSome
  | none => false

/-- Model of `a.due_at ? new Date(a.due_at) < now : false`. -/
def isDueDatePassed (now : Int) (a : RawAssignment) : Bool :=
  match a.due_at with
  | some d => decide (d < now)
  | none => false

/-- The switch statement of the status filter in listAssignments. -/
def statusKeep (now : Int) (filt : StatusFilter) (a : RawAssignment) : Bool :=
  match filt with
  | .missing =>
    (match a.submission with
     | some s => s.missing == some true
     | none => false)
    || (isDueDatePassed now a && !hasSubmittedAt a.submission)
  | .unsubmitted => a.submission.isNone || !hasSubmittedAt a.submission
  | .submitted =>
    hasSubmittedAt a.submission
    || (match a.submission with
        | some s => s.workflow_state == "submitted" || s.workflow_state == "graded"
        | none => false)
  | .all => true

/-- Future filter of listAssignments:
`if (!a.unlock_at) return true; return new Date(a.unlock_at) <= now`. -/
def unlockPassed (now : Int) (a : RawAssignment) : Bool :=
  match a.unlock_at with
  | none => true
  | some u => decide (u ≤ now)

/-- The two sequential filter stages of listAssignments. The code reads
the clock separately in each stage; both reads are modelled by the single
parameter `now`. -/
def filteredAssignments (now : Int) (includeFuture : Bool) (filt : StatusFilter)
    (assignments : List RawAssignment) : List RawAssignment :=
  let l1 := if includeFuture then assignments else assignments.filter (unlockPassed now)
  if filt == .all then l1 else l1.filter (statusKeep now filt)

/-- Normalized submission status included in the listAssignments output. -/
structure NSubmission where
  workflow_state : String
  submitted_at : Option Int
  missing : Bool
  late : Bool
deriving DecidableEq, Repr

/-- Normalized assignment record returned by listAssignments. -/
structure NAssignment where
  id : Int
  name : String
  due_at : Option Int
  unlock_at : Option Int
  lock_at : Option Int
  points_possible : Int
  submission_types : List String
  submission_status : Option NSubmission
deriving DecidableEq, Repr

/-- Output normalization map of listAssignments. -/
def normalizeAssignment (a : RawAssignment) : NAssignment :=
  { id := a.id
    name := a.name
    due_at := a.due_at
    unlock_at := a.unlock_at
    lock_at := a.lock_at
    points_possible := a.points_possible.getD 0
    submission_types := a.submission_types
    submission_status :=
      match a.submission with
      | some s =>
        some { workflow_state := s.workflow_state
               submitted_at := s.submitted_at
               missing := s.missing.getD false
               late := s.late.getD false }
      | none => none }

/-- Model of listAssignments after the paginated fetch: filter stages
followed by output normalization. -/
def listAssignments (now : Int) (includeFuture : Bool) (filt : StatusFilter)
    (fetched : List RawAssignment) : List NAssignment :=
  (filteredAssignments now includeFuture filt fetched).map normalizeAssignment

theorem statusKeep_missing_iff (now : Int) (a : RawAssignment) :
    statusKeep now .missing a = true ↔
      ((∃ s, a.submission = some s ∧ s.missing = some true) ∨
        ((∃ d, a.due_at = some d ∧ d < now) ∧
          ¬ ∃ s t, a.submission = some s ∧ s.submitted_at = some t)) := by
  rcases hs : a.submission with _ | s <;>
    rcases hd : a.due_at with _ | d <;>
      simp [statusKeep, isDueDatePassed, hasSubmittedAt, hs, hd, Option.isSome_iff_exists,
        Option.eq_none_iff_forall_not_mem]

theorem statusKeep_unsubmitted_iff (now : Int) (a : RawAssignment) :
    statusKeep now .unsubmitted a = true ↔
      (a.submission = none ∨ ∃ s, a.submission = some s ∧ s.submitted_at = none) := by
  rcases hs : a.submission with _ | s <;>
    simp [statusKeep, hasSubmittedAt, hs, Option.isNone_iff_eq_none,
      Option.bnot_isSome]

theorem statusKeep_submitted_iff (now : Int) (a : RawAssignment) :
    statusKeep now .submitted a = true ↔
      ((∃ s t, a.submission = some s ∧ s.submitted_at = some t) ∨
        ∃ s, a.submission = some s ∧
          (s.workflow_state = "submitted" ∨ s.workflow_state = "graded")) := by
  rcases hs : a.submission with _ | s <;>
    simp [statusKeep, hasSubmittedAt, hs, Option.isSome_iff_exists]

/-- C1: with status filter missing, listAssignments keeps exactly the
assignments whose submission has the missing flag set, or whose due date is
strictly in the past with no submission timestamp; with unsubmitted, exactly
those with no submission object or no submission timestamp; with submitted,
exactly those with a submission timestamp or workflow state submitted or
graded; with all, every assignment. In particular an assignment with past
due date and no submission object is kept under missing and unsubmitted and
dropped under submitted. -/
theorem listAssignments_statusFilter_spec (now : Int) (l : List RawAssignment)
    (a : RawAssignment) (ha : a ∈ l) :
    (a ∈ filteredAssignments now true .missing l ↔
      ((∃ s, a.submission = some s ∧ s.missing = some true) ∨
        ((∃ d, a.due_at = some d ∧ d < now) ∧
          ¬ ∃ s t, a.submission = some s ∧ s.submitted_at = some t)))
    ∧ (a ∈ filteredAssignments now true .unsubmitted l ↔
      (a.submission = none ∨ ∃ s, a.submission = some s ∧ s.submitted_at = none))
    ∧ (a ∈ filteredAssignments now true .submitted l ↔
      ((∃ s t, a.submission = some s ∧ s.submitted_at = some t) ∨
        ∃ s, a.submission = some s ∧
          (s.workflow_state = "submitted" ∨ s.workflow_state = "graded")))
    ∧ filteredAssignments now true .all l = l
    ∧ ((∃ d, a.due_at = some d ∧ d < now) → a.submission = none →
        a ∈ filteredAssignments now true .missing l ∧
        a ∈ filteredAssignments now true .unsubmitted l ∧
        a ∉ filteredAssignments now true .submitted l) := by
  have hm := statusKeep_missing_iff now a
  have hu := statusKeep_unsubmitted_iff now a
  have hsub := statusKeep_submitted_iff now a
  have hmem : ∀ f : StatusFilter, f ≠ .all →
      (a ∈ filteredAssignments now true f l ↔ statusKeep now f a = true) := by
    intro f hf
    have : (f == .all) = false := by
      cases f <;> simp_all
    simp [filteredAssignments, this, List.mem_filter, ha]
  refine ⟨?_, ?_, ?_, ?_, ?_⟩
  · rw [hmem .missing (by simp), hm]
  · rw [hmem .unsubmitted (by simp), hu]
  · rw [hmem .submitted (by simp), hsub]
  · simp [filteredAssignments]
  · intro hd hsnone
    refine ⟨?_, ?_, ?_⟩
    · rw [hmem .missing (by simp), hm]
      exact Or.inr ⟨hd, by simp [hsnone]⟩
    · rw [hmem .unsubmitted (by simp), hu]
      exact Or.inl hsnone
    · rw [hmem .submitted (by simp), hsub]
      simp [hsnone]

/-- Sample assignment for the C1 witness: due in the past, no submission. -/
def c1Sample : RawAssignment :=
  { id := 11
    name := "essay"
    due_at := some 5
    unlock_at := none
    lock_at := none
    points_possible := some 10
    submission_types := ["online_text_entry"]
    submission := none }

/-- C1 witness: the characterization applied to a concrete past-due
assignment with no submission object. -/
theorem listAssignments_statusFilter_spec_witness :
    c1Sample ∈ filteredAssignments 100 true .missing [c1Sample] ∧
    c1Sample ∈ filteredAssignments 100 true .unsubmitted [c1Sample] ∧
    c1Sample ∉ filteredAssignments 100 true .submitted [c1Sample] :=
  (listAssignments_statusFilter_spec 100 [c1Sample] c1Sample (by simp)).2.2.2.2
    ⟨5, rfl, by decide⟩ rfl

/- ## canvas-client.ts: Link header pagination -/

/-- Whitespace class of the JavaScript regex escape for spaces, covering
the ASCII blanks and the common Unicode space code points. -/
def isJsWs (c : Char) : Bool :=
  c == ' ' || c == '\t' || c == '\n' || c == '\r'
  || c.toNat == 0x0b || c.toNat == 0x0c || c.toNat == 0xa0
  || c.toNat == 0x1680 || (0x2000 ≤ c.toNat && c.toNat ≤ 0x200a)
  || c.toNat == 0x2028 || c.toNat == 0x2029 || c.toNat == 0x202f
  || c.toNat == 0x205f || c.toNat == 0x3000 || c.toNat == 0xfeff

/-- Attempt of the link regex at the current position: an angle-bracketed
URL, a semicolon, optional spaces, and a quoted rel attribute. -/
def matchLinkAt (s : Str) : Option (Str × Str) :=
  match s with
  | '<' :: rest =>
    let url := rest.takeWhile (fun c => c != '>')
    let r1 := rest.dropWhile (fun c => c != '>')
    if url.isEmpty then none
    else
      match r1 with
      | '>' :: ';' :: r2 =>
        match r2.dropWhile isJsWs with
        | 'r' :: 'e' :: 'l' :: '=' :: '"' :: r3 =>
          let rel := r3.takeWhile (fun c => c != '"')
          let r4 := r3.dropWhile (fun c => c != '"')
          if rel.isEmpty then none
          else
            match r4 with
            | '"' :: _ => some (url, rel)
            | _ => none
        | _ => none
      | _ => none
  | _ => none

/-- First match of the link regex anywhere in the segment, scanning left
to right as the JavaScript match method does. -/
def findLinkMatch : Str → Option (Str × Str)
  | [] => none
  | c :: rest =>
    match matchLinkAt (c :: rest) with
    | some m => some m
    | none => findLinkMatch rest

/-- Model of parseLinkHeader: split the header on commas, and for each
segment whose regex match has rel next, record its URL (a later next
relation overwrites an earlier one); every other relation is ignored. -/
def parseLinkHeader (linkHeader : Option Str) : Option Str :=
  match linkHeader with
  | none => none
  | some s =>
    (List.splitOn ',' s).foldl
      (fun acc part =>
        match findLinkMatch part with
        | some (url, rel) => if rel == strL "next" then some url else acc
        | none => acc)
      none

/-- Error kinds thrown by the paginated fetch loop. -/
inductive FetchErr where
  | upstream (status : Nat)
  | invalidResponse
  | noResponse
deriving DecidableEq, Repr

/-- Response delivered for one page request: HTTP status, parse result of
the body, and the raw Link header if present. -/
structure PageResp (α : Type) where
  status : Nat
  body : Except Unit (List α)
  linkHeader : Option Str

/-- HTTP success check used by `response.ok`. -/
def respOk (status : Nat) : Bool := 200 ≤ status && status ≤ 299

/-- Body parse succeeded. -/
def exceptIsOk : Except Unit (List α) → Bool
  | .ok _ => true
  | .error _ => false

/-- Items of a parsed page body, empty on a parse failure. -/
def pageBody : PageResp α → List α
  | p => match p.body with
    | .ok l => l
    | .error _ => []

/-- Model of the getWithPagination loop. The upstream is the sequence of
responses served to the successive requests; following the next URL is
consuming the next response. The result carries the accumulated items and
the number of requests issued. -/
def fetchAllPages : List (PageResp α) → Except FetchErr (List α × Nat)
  | [] => .error .noResponse
  | p :: rest =>
    if respOk p.status = false then .error (.upstream p.status)
    else
      match p.body with
      | .error _ => .error .invalidResponse
      | .ok items =>
        match parseLinkHeader p.linkHeader with
        | none => .ok (items, 1)
        | some _ =>
          match fetchAllPages rest with
          | .error e => .error e
          | .ok (more, n) => .ok (items ++ more, n + 1)

theorem foldl_fixed {β γ : Type} (f : γ → β → γ) (l : List β) (a : γ)
    (h : ∀ x ∈ l, ∀ acc, f acc x = acc) : l.foldl f a = a := by
  induction l generalizing a with
  | nil => rfl
  | cons x xs ih =>
    rw [List.foldl_cons, h x (by simp), ih]
    intro y hy acc
    exact h y (by simp [hy]) acc

/-- C5: when pages one through N minus one each advertise a next relation
and page N does not, the paginated fetch returns the concatenation of all
page bodies in order and issues exactly N requests; a header whose matches
all carry a relation other than next yields no next URL, so only the next
relation is ever followed. -/
theorem pagination_completeness {α : Type} (good : List (PageResp α)) (lastPage : PageResp α)
    (hg : ∀ p ∈ good, respOk p.status = true ∧ exceptIsOk p.body = true ∧
      (parseLinkHeader p.linkHeader).isSome = true)
    (hs : respOk lastPage.status = true) (hb : exceptIsOk lastPage.body = true)
    (hn : parseLinkHeader lastPage.linkHeader = none) :
    fetchAllPages (good ++ [lastPage]) =
      .ok ((good ++ [lastPage]).flatMap pageBody, good.length + 1)
    ∧ (∀ s : Str,
        (∀ part ∈ List.splitOn ',' s, ∀ u r, findLinkMatch part = some (u, r) →
          r ≠ strL "next") →
        parseLinkHeader (some s) = none) := by
  constructor
  · induction good with
    | nil =>
      rcases hok : lastPage.body with _ | items
      · simp [exceptIsOk, hok] at hb
      · simp [fetchAllPages, hs, hok, hn, pageBody]
    | cons p rest ih =>
      obtain ⟨hp1, hp2, hp3⟩ := hg p (by simp)
      rcases hok : p.body with _ | items
      · simp [exceptIsOk, hok] at hp2
      · rcases hnext : parseLinkHeader p.linkHeader with _ | u
        · simp [hnext] at hp3
        · have ihr := ih (fun q hq => hg q (by simp [hq]))
          have step : fetchAllPages ((p :: rest) ++ [lastPage]) =
              match fetchAllPages (rest ++ [lastPage]) with
              | .error e => .error e
              | .ok (more, n) => .ok (items ++ more, n + 1) := by
            simp [fetchAllPages, hp1, hok, hnext]
          rw [step, ihr]
          simp [pageBody, hok]
  · intro s h
    unfold parseLinkHeader
    apply foldl_fixed
    intro part hpart acc
    rcases hm : findLinkMatch part with _ | ⟨u, r⟩
    · rfl
    · have hr : (r == strL "next") = false :=
        beq_eq_false_iff_ne.mpr (h part hpart u r hm)
      simp [hr]

/-- C6: a non 2xx page aborts the whole paginated fetch with an upstream
error carrying the status, and a 2xx page whose body fails to parse aborts
with an invalid response error; in both cases the accumulated items of the
earlier pages are discarded. -/
theorem pagination_abort {α : Type} (good : List (PageResp α)) (bad : PageResp α)
    (rest : List (PageResp α))
    (hg : ∀ p ∈ good, respOk p.status = true ∧ exceptIsOk p.body = true ∧
      (parseLinkHeader p.linkHeader).isSome = true) :
    (respOk bad.status = false →
      fetchAllPages (good ++ bad :: rest) = .error (.upstream bad.status))
    ∧ (respOk bad.status = true → bad.body = .error () →
      fetchAllPages (good ++ bad :: rest) = .error .invalidResponse) := by
  induction good with
  | nil =>
    constructor
    · intro hbad
      simp [fetchAllPages, hbad]
    · intro hok hbody
      simp [fetchAllPages, hok, hbody]
  | cons p tail ih =>
    obtain ⟨hp1, hp2, hp3⟩ := hg p (by simp)
    rcases hok : p.body with _ | items
    · simp [exceptIsOk, hok] at hp2
    · rcases hnext : parseLinkHeader p.linkHeader with _ | u
      · simp [hnext] at hp3
      · obtain ⟨ih1, ih2⟩ := ih (fun q hq => hg q (by simp [hq]))
        constructor
        · intro hbad
          simp [fetchAllPages, hp1, hok, hnext, ih1 hbad]
        · intro hbadok hbody
          simp [fetchAllPages, hp1, hok, hnext, ih2 hbadok hbody]

/-- Concrete first page for the C5 witness. -/
def c5P1 : PageResp Nat :=
  ⟨200, .ok [1, 2],
    some (strL "<https://c/api?page=2>; rel=\"next\", <https://c/api?page=9>; rel=\"last\"")⟩

/-- Concrete second page for the C5 witness. -/
def c5P2 : PageResp Nat :=
  ⟨200, .ok [3], some (strL "<https://c/api?page=3>; rel=\"next\"")⟩

/-- Concrete final page for the C5 witness. -/
def c5P3 : PageResp Nat := ⟨200, .ok [4, 5], none⟩

/-- C5 witness: a three page run returns all items in order with three
requests. -/
theorem pagination_completeness_witness :
    fetchAllPages [c5P1, c5P2, c5P3] = .ok ([1, 2, 3, 4, 5], 3) :=
  (pagination_completeness [c5P1, c5P2] c5P3
    (by intro p hp; fin_cases hp <;> exact ⟨rfl, rfl, rfl⟩) rfl rfl rfl).1

/-- Concrete good page for the C6 witness. -/
def c6P1 : PageResp Nat :=
  ⟨200, .ok [7], some (strL "<https://c/api?page=2>; rel=\"next\"")⟩

/-- Concrete failing page with a server error status for the C6 witness. -/
def c6Bad : PageResp Nat := ⟨503, .ok [], none⟩

/-- Concrete failing page with an unparseable body for the C6 witness. -/
def c6Bad2 : PageResp Nat := ⟨200, .error (), none⟩

/-- C6 witness: a 503 second page aborts with the upstream status, and an
unparseable second page aborts with an invalid response error. -/
theorem pagination_abort_witness :
    fetchAllPages [c6P1, c6Bad] = .error (.upstream 503) ∧
    fetchAllPages [c6P1, c6Bad2] = .error .invalidResponse :=
  ⟨(pagination_abort [c6P1] c6Bad []
      (by intro p hp; fin_cases hp <;> exact ⟨rfl, rfl, rfl⟩)).1 rfl,
   (pagination_abort [c6P1] c6Bad2 []
      (by intro p hp; fin_cases hp <;> exact ⟨rfl, rfl, rfl⟩)).2 rfl rfl⟩

/- ## canvas-client.ts: getCourseGrades -/

/-- Course date metadata carried on an enrollment (interface RawCourse in
getCourseGrades). A date is `none` when null, absent or falsy. -/
structure RawCourseDates where
  start_at : Option Int
  end_at : Option Int
deriving DecidableEq, Repr

/-- Grades object nested in an enrollment (interface RawGrades). The
fields distinguish an absent field from an explicit null. -/
structure RawGrades where
  current_score : Option (Option Int)
  current_grade : Option (Option String)
  final_score : Option (Option Int)
  final_grade : Option (Option String)
deriving DecidableEq, Repr

/-- Enrollment object fetched by getCourseGrades (interface
RawEnrollment). -/
structure RawEnrollment where
  id : Int
  course_id : Int
  enrollment_state : String
  grades : Option RawGrades
  computed_current_score : Option (Option Int)
  computed_current_grade : Option (Option String)
  computed_final_score : Option (Option Int)
  computed_final_grade : Option (Option String)
  enrollment_term_id : Option (Option Int)
  course : Option RawCourseDates
deriving DecidableEq, Repr

/-- Model of `e.course?.end_at`. -/
def courseEnd (e : RawEnrollment) : Option Int :=
  match e.course with
  | some c => c.end_at
  | none => none

/-- Model of `e.course?.start_at`. -/
def courseStart (e : RawEnrollment) : Option Int :=
  match e.course with
  | some c => c.start_at
  | none => none

/-- The sort comparator of getCourseGrades: later course end date first,
an enrollment without an end date before one with an end date, and only
when both lack end dates the higher enrollment id first. -/
def enrollCmp (a b : RawEnrollment) : Int :=
  match courseEnd a, courseEnd b with
  | some ta, some tb => tb - ta
  | some _, none => 1
  | none, some _ => -1
  | none, none => b.id - a.id

/-- Stable insertion step for a JavaScript style comparator: an element is
placed before the first element it does not strictly follow, so elements
that compare equal keep their original relative order. -/
def insertCmp (cmp : α → α → Int) (a : α) : List α → List α
  | [] => [a]
  | b :: bs => if cmp a b ≤ 0 then a :: b :: bs else b :: insertCmp cmp a bs

/-- Stable sort with a JavaScript style comparator, modelling the
ECMAScript stable Array sort for a consistent comparator. -/
def sortCmp (cmp : α → α → Int) : List α → List α
  | [] => []
  | a :: rest => insertCmp cmp a (sortCmp cmp rest)

/-- Restriction to active enrollments when any exist, with fallback to
the full candidate set. -/
def selectCandidates (courseEnrollments : List RawEnrollment) : List RawEnrollment :=
  let active := courseEnrollments.filter (fun e => e.enrollment_state == "active")
  if active.length > 0 then active else courseEnrollments

/-- The enrollment selection of getCourseGrades: sort the candidates with
the comparator and take the first element. -/
def selectBestEnrollment (courseEnrollments : List RawEnrollment) : Option RawEnrollment :=
  (sortCmp enrollCmp (selectCandidates courseEnrollments)).head?

/-- Model of the grade presence test, with the strict inequality against
null of the source: an absent field passes the test. -/
def hasGradeData (e : RawEnrollment) : Bool :=
  (match e.grades with
   | some g =>
     jsNeNull g.current_score || jsNeNull g.current_grade
     || jsNeNull g.final_score || jsNeNull g.final_grade
   | none => false)
  || jsNeNull e.computed_current_score || jsNeNull e.computed_current_grade

/-- Model of `enrollment.enrollment_term_id || null`: an id of zero is
falsy and becomes null. -/
def termIdVal : Option (Option Int) → Option Int
  | some (some v) => if v == 0 then none else some v
  | _ => none

/-- Result union returned by getCourseGrades. -/
inductive GradeResult where
  | unavailable (course_id : Int) (reason : String)
  | noGradesYet (course_id : Int) (enrollment_state : String) (term_id : Option Int)
      (course_start_at : Option Int) (course_end_at : Option Int)
  | available (course_id : Int) (current_score : Option Int) (current_grade : Option String)
      (final_score : Option Int) (final_grade : Option String) (enrollment_state : String)
      (term_id : Option Int) (course_start_at : Option Int) (course_end_at : Option Int)
deriving DecidableEq, Repr

/-- Result is the no grades yet variant. -/
def isNoGradesYet : GradeResult → Bool
  | .noGradesYet _ _ _ _ _ => true
  | _ => false

/-- Result is the available variant. -/
def isAvailable : GradeResult → Bool
  | .available _ _ _ _ _ _ _ _ _ => true
  | _ => false

/-- Grades field of the selected enrollment through the optional chain
`grades?.` (absent grades object behaves as an absent field). -/
def gradesField (e : RawEnrollment) (f : RawGrades → Option (Option β)) : Option (Option β) :=
  match e.grades with
  | some g => f g
  | none => none

/-- Tail of getCourseGrades after an enrollment has been selected: the
grade presence check and the normalization of the two result shapes. -/
def gradeFromEnrollment (cid : Int) (e : RawEnrollment) : GradeResult :=
  if hasGradeData e = false then
    .noGradesYet cid e.enrollment_state (termIdVal e.enrollment_term_id)
      (courseStart e) (courseEnd e)
  else
    .available cid
      (nullish2 (gradesField e RawGrades.current_score) e.computed_current_score)
      (nullish2 (gradesField e RawGrades.current_grade) e.computed_current_grade)
      (nullish2 (gradesField e RawGrades.final_score) e.computed_final_score)
      (nullish2 (gradesField e RawGrades.final_grade) e.computed_final_grade)
      e.enrollment_state (termIdVal e.enrollment_term_id)
      (courseStart e) (courseEnd e)

/-- Outcome of the single enrollment fetch performed by getCourseGrades:
a timeout, any other thrown transport error, or a response with a status
and a body parse result. -/
inductive FetchOutcome (β : Type) where
  | timeout
  | networkError
  | response (status : Nat) (body : Except Unit β)

/-- Model of getCourseGrades. The whole body of the source function runs
inside a try catch whose handler returns the hidden or unavailable shape,
so every failure branch of the fetch is mapped to that value and the
function is total. -/
def getCourseGrades (cid : Int) (f : FetchOutcome (List RawEnrollment)) : GradeResult :=
  match f with
  | .timeout => .unavailable cid "hidden_or_unavailable"
  | .networkError => .unavailable cid "hidden_or_unavailable"
  | .response status body =>
    if respOk status = false then .unavailable cid "hidden_or_unavailable"
    else
      match body with
      | .error _ => .unavailable cid "hidden_or_unavailable"
      | .ok enrollments =>
        let courseEnrollments := enrollments.filter (fun e => e.course_id == cid)
        match selectBestEnrollment courseEnrollments with
        | none => .unavailable cid "hidden_or_unavailable"
        | some e => gradeFromEnrollment cid e

/-- C3: getCourseGrades maps every failing fetch outcome, including a
timeout, a non 2xx status and an unparseable body, to the hidden or
unavailable result instead of propagating the error; the model being a
total function embeds the fact that nothing escapes the try catch. -/
theorem getCourseGrades_never_throws (cid : Int) (f : FetchOutcome (List RawEnrollment))
    (h : f = .timeout ∨ f = .networkError ∨
      ∃ s b, f = .response s b ∧ (respOk s = false ∨ b = .error ())) :
    getCourseGrades cid f = .unavailable cid "hidden_or_unavailable" := by
  rcases h with h | h | ⟨s, b, rfl, h2⟩
  · rw [h]; rfl
  · rw [h]; rfl
  · rcases h2 with h2 | rfl
    · simp [getCourseGrades, h2]
    · rcases hok : respOk s with _ | _ <;> simp [getCourseGrades, hok]

/-- C3 witness: a timeout is swallowed into the hidden or unavailable
result. -/
theorem getCourseGrades_never_throws_witness :
    getCourseGrades 5 .timeout = .unavailable 5 "hidden_or_unavailable" :=
  getCourseGrades_never_throws 5 .timeout (Or.inl rfl)

theorem getCourseGrades_single (cid : Int) (e : RawEnrollment) (hc : e.course_id = cid) :
    getCourseGrades cid (.response 200 (.ok [e])) = gradeFromEnrollment cid e := by
  have hfilter : [e].filter (fun x => x.course_id == cid) = [e] := by simp [hc]
  have hsel : selectBestEnrollment [e] = some e := by
    unfold selectBestEnrollment selectCandidates
    by_cases h : (e.enrollment_state == "active") = true <;>
      simp [h, sortCmp, insertCmp]
  simp [getCourseGrades, respOk, hfilter, hsel]

theorem hasGradeData_eq_false_iff (e : RawEnrollment) :
    hasGradeData e = false ↔
      ((e.grades = none ∨ ∃ g, e.grades = some g ∧ g.current_score = some none ∧
          g.current_grade = some none ∧ g.final_score = some none ∧
          g.final_grade = some none)
        ∧ e.computed_current_score = some none ∧ e.computed_current_grade = some none) := by
  rcases hg : e.grades with _ | g
  · simp [hasGradeData, hg, Bool.or_eq_false_iff, jsNeNull_eq_false]
  · simp [hasGradeData, hg, Bool.or_eq_false_iff, jsNeNull_eq_false]
    tauto

/-- C2 amended: in the single enrollment success path, the result is the
no grades yet shape exactly when every grade field that is present is an
explicit null, that is when the grades object is absent or carries four
explicit nulls, and both computed current fields are explicit nulls; an
absent computed field makes the strict non null test succeed, so an
enrollment omitting these fields entirely is classified available, and a
computed current score of zero is likewise available. When the result is
no grades yet it carries the enrollment state, term id and course date
metadata. -/
theorem getCourseGrades_noGradesYet_amended (cid : Int) (e : RawEnrollment)
    (hc : e.course_id = cid) :
    (isNoGradesYet (getCourseGrades cid (.response 200 (.ok [e]))) = true ↔
      ((e.grades = none ∨ ∃ g, e.grades = some g ∧ g.current_score = some none ∧
          g.current_grade = some none ∧ g.final_score = some none ∧
          g.final_grade = some none)
        ∧ e.computed_current_score = some none ∧ e.computed_current_grade = some none))
    ∧ (isNoGradesYet (getCourseGrades cid (.response 200 (.ok [e]))) = true →
        getCourseGrades cid (.response 200 (.ok [e])) =
          .noGradesYet cid e.enrollment_state (termIdVal e.enrollment_term_id)
            (courseStart e) (courseEnd e))
    ∧ (e.computed_current_score = some (some 0) →
        isAvailable (getCourseGrades cid (.response 200 (.ok [e]))) = true) := by
  have hchar := hasGradeData_eq_false_iff e
  rw [getCourseGrades_single cid e hc]
  by_cases hgd : hasGradeData e = false
  · rw [gradeFromEnrollment, if_pos hgd]
    refine ⟨?_, fun _ => rfl, ?_⟩
    · exact ⟨fun _ => hchar.mp hgd, fun _ => rfl⟩
    · intro h0
      exfalso
      have hnull := (hchar.mp hgd).2.1
      rw [h0] at hnull
      simp at hnull
  · rw [gradeFromEnrollment, if_neg hgd]
    refine ⟨?_, ?_, fun _ => rfl⟩
    · constructor
      · intro h
        simp [isNoGradesYet] at h
      · intro hR
        exact absurd (hchar.mpr hR) hgd
    · intro h
      simp [isNoGradesYet] at h

/-- Modelled from the spec: grade data is present when one of the four
grades fields or one of the two computed current fields carries an actual
non null value; a field that is absent carries none. -/
def specGradeDataPresent (e : RawEnrollment) : Bool :=
  (match e.grades with
   | some g =>
     carriesValue g.current_score || carriesValue g.current_grade
     || carriesValue g.final_score || carriesValue g.final_grade
   | none => false)
  || carriesValue e.computed_current_score || carriesValue e.computed_current_grade

/-- Enrollment whose grade fields are all absent, for the C2
counterexample. -/
def c2E : RawEnrollment :=
  { id := 1
    course_id := 3
    enrollment_state := "active"
    grades := none
    computed_current_score := none
    computed_current_grade := none
    computed_final_score := none
    computed_final_grade := none
    enrollment_term_id := none
    course := none }

/-- C2 counterexample: an enrollment carrying no grade value at all, with
the fields absent rather than null, is classified available by the code,
while the claim requires the no grades yet result. -/
theorem getCourseGrades_absent_fields_counterexample :
    specGradeDataPresent c2E = false ∧
    getCourseGrades 3 (.response 200 (.ok [c2E])) =
      .available 3 none none none none "active" none none none := by
  constructor
  · rfl
  · decide

/-- Enrollment whose grade fields are all explicit nulls, for the C2
witness. -/
def c2W : RawEnrollment :=
  { id := 2
    course_id := 4
    enrollment_state := "invited"
    grades := some ⟨some none, some none, some none, some none⟩
    computed_current_score := some none
    computed_current_grade := some none
    computed_final_score := some none
    computed_final_grade := some none
    enrollment_term_id := some (some 9)
    course := some ⟨some 50, some 60⟩ }

/-- C2 witness: explicit nulls everywhere produce the no grades yet shape
with the enrollment metadata. -/
theorem getCourseGrades_noGradesYet_amended_witness :
    isNoGradesYet (getCourseGrades 4 (.response 200 (.ok [c2W]))) = true ∧
    getCourseGrades 4 (.response 200 (.ok [c2W])) =
      .noGradesYet 4 "invited" (some 9) (some 50) (some 60) := by
  have h := getCourseGrades_noGradesYet_amended 4 c2W rfl
  have h1 : isNoGradesYet (getCourseGrades 4 (.response 200 (.ok [c2W]))) = true :=
    h.1.mpr (by simp [c2W])
  refine ⟨h1, ?_⟩
  have h2 := h.2.1 h1
  simpa [c2W, termIdVal, courseStart, courseEnd] using h2

/-- Modelled from the spec: the ranking the claim describes, in which an
enrollment with a later course end date ranks first, one with no end date
ranks ahead of one with an end date, and every remaining tie is broken by
the higher enrollment id. -/
def specRanksFirst (a b : RawEnrollment) : Bool :=
  match courseEnd a, courseEnd b with
  | some ta, some tb => decide (tb < ta) || (ta == tb && decide (b.id < a.id))
  | none, some _ => true
  | some _, none => false
  | none, none => decide (b.id < a.id)

/-- First enrollment of the C4 counterexample: lower id, listed first. -/
def c4E1 : RawEnrollment :=
  { id := 1
    course_id := 7
    enrollment_state := "active"
    grades := none
    computed_current_score := some (some 10)
    computed_current_grade := none
    computed_final_score := none
    computed_final_grade := none
    enrollment_term_id := none
    course := some ⟨none, some 1000⟩ }

/-- Second enrollment of the C4 counterexample: higher id, same course
end date, listed second. -/
def c4E2 : RawEnrollment :=
  { id := 2
    course_id := 7
    enrollment_state := "active"
    grades := none
    computed_current_score := some (some 20)
    computed_current_grade := none
    computed_final_score := none
    computed_final_grade := none
    enrollment_term_id := none
    course := some ⟨none, some 1000⟩ }

/-- C4 counterexample: two active enrollments with the same course end
date. The order the claim describes ranks the higher id first, but the
comparator returns zero on equal end dates without consulting the id, so
the stable sort keeps the first fetched enrollment and its grade data,
id 1 with score 10, is returned. -/
theorem enrollment_selection_counterexample :
    specRanksFirst c4E2 c4E1 = true ∧ specRanksFirst c4E1 c4E2 = false ∧
    getCourseGrades 7 (.response 200 (.ok [c4E1, c4E2])) =
      .available 7 (some 10) none none none "active" none none (some 1000) := by
  refine ⟨rfl, rfl, ?_⟩
  decide

theorem selectBest_pair_active (a b : RawEnrollment)
    (ha : a.enrollment_state = "active") (hb : b.enrollment_state = "active") :
    selectBestEnrollment [a, b] =
      (if enrollCmp a b ≤ 0 then some a else some b) := by
  unfold selectBestEnrollment selectCandidates
  simp only [List.filter, ha, hb]
  by_cases h : enrollCmp a b ≤ 0 <;>
    simp [sortCmp, insertCmp, h]

/-- C4 amended: getCourseGrades restricts to active enrollments when any
exist; among two active candidates the later course end date wins, a
missing end date wins over a present one, and two missing end dates are
resolved to the higher id; but two candidates with equal end dates
compare as zero and the first fetched one is kept, rather than the higher
id as the claim stated. -/
theorem enrollment_selection_amended (a b : RawEnrollment) :
    (a.enrollment_state = "active" → b.enrollment_state ≠ "active" →
      selectBestEnrollment [a, b] = some a)
    ∧ (b.enrollment_state = "active" → a.enrollment_state ≠ "active" →
      selectBestEnrollment [a, b] = some b)
    ∧ (a.enrollment_state = "active" → b.enrollment_state = "active" →
        ((∀ ta tb, courseEnd a = some ta → courseEnd b = some tb → ta < tb →
           selectBestEnrollment [a, b] = some b)
         ∧ (∀ ta tb, courseEnd a = some ta → courseEnd b = some tb → tb < ta →
           selectBestEnrollment [a, b] = some a)
         ∧ (∀ tb, courseEnd a = none → courseEnd b = some tb →
           selectBestEnrollment [a, b] = some a)
         ∧ (∀ ta, courseEnd a = some ta → courseEnd b = none →
           selectBestEnrollment [a, b] = some b)
         ∧ (courseEnd a = none → courseEnd b = none →
           selectBestEnrollment [a, b] = (if a.id < b.id then some b else some a))
         ∧ (∀ t, courseEnd a = some t → courseEnd b = some t →
           selectBestEnrollment [a, b] = some a))) := by
  refine ⟨?_, ?_, ?_⟩
  · intro ha hb
    have hbf : (b.enrollment_state == "active") = false := by
      simpa using hb
    unfold selectBestEnrollment selectCandidates
    simp [List.filter, ha, hbf, sortCmp, insertCmp]
  · intro hb ha
    have haf : (a.enrollment_state == "active") = false := by
      simpa using ha
    unfold selectBestEnrollment selectCandidates
    simp [List.filter, haf, hb, sortCmp, insertCmp]
  · intro ha hb
    have hp := selectBest_pair_active a b ha hb
    refine ⟨?_, ?_, ?_, ?_, ?_, ?_⟩
    · intro ta tb hea heb hlt
      rw [hp]
      have : ¬ enrollCmp a b ≤ 0 := by
        simp [enrollCmp, hea, heb]
        omega
      simp [this]
    · intro ta tb hea heb hlt
      rw [hp]
      have : enrollCmp a b ≤ 0 := by
        simp [enrollCmp, hea, heb]
        omega
      simp [this]
    · intro tb hea heb
      rw [hp]
      have : enrollCmp a b ≤ 0 := by
        simp [enrollCmp, hea, heb]
      simp [this]
    · intro ta hea heb
      rw [hp]
      have : ¬ enrollCmp a b ≤ 0 := by
        simp [enrollCmp, hea, heb]
      simp [this]
    · intro hea heb
      rw [hp]
      by_cases hid : a.id < b.id
      · have : ¬ enrollCmp a b ≤ 0 := by
          simp [enrollCmp, hea, heb]
          omega
        simp [this, hid]
      · have : enrollCmp a b ≤ 0 := by
          simp [enrollCmp, hea, heb]
          omega
        simp [this, hid]
    · intro t hea heb
      rw [hp]
      have : enrollCmp a b ≤ 0 := by
        simp [enrollCmp, hea, heb]
      simp [this]

/-- Active enrollment with the earlier course end date, for the C4
witness. -/
def c4W1 : RawEnrollment :=
  { id := 1
    course_id := 7
    enrollment_state := "active"
    grades := none
    computed_current_score := none
    computed_current_grade := none
    computed_final_score := none
    computed_final_grade := none
    enrollment_term_id := none
    course := some ⟨none, some 10⟩ }

/-- Inactive enrollment with the later course end date, for the C4
witness. -/
def c4W2 : RawEnrollment :=
  { id := 2
    course_id := 7
    enrollment_state := "completed"
    grades := none
    computed_current_score := none
    computed_current_grade := none
    computed_final_score := none
    computed_final_grade := none
    enrollment_term_id := none
    course := some ⟨none, some 99⟩ }

/-- Active enrollment without an end date and with the lower id, for the
C4 witness. -/
def c4W3 : RawEnrollment :=
  { id := 3
    course_id := 7
    enrollment_state := "active"
    grades := none
    computed_current_score := none
    computed_current_grade := none
    computed_final_score := none
    computed_final_grade := none
    enrollment_term_id := none
    course := none }

/-- Active enrollment without an end date and with the higher id, for the
C4 witness. -/
def c4W4 : RawEnrollment :=
  { id := 9
    course_id := 7
    enrollment_state := "active"
    grades := none
    computed_current_score := none
    computed_current_grade := none
    computed_final_score := none
    computed_final_grade := none
    enrollment_term_id := none
    course := none }

/-- C4 witness: the active enrollment beats the inactive one with a later
end date, and between two active enrollments without end dates the higher
id wins. -/
theorem enrollment_selection_amended_witness :
    selectBestEnrollment [c4W1, c4W2] = some c4W1 ∧
    selectBestEnrollment [c4W3, c4W4] = some c4W4 := by
  constructor
  · exact (enrollment_selection_amended c4W1 c4W2).1 rfl (by decide)
  · have h := ((enrollment_selection_amended c4W3 c4W4).2.2 rfl rfl).2.2.2.2.1 rfl rfl
    simpa [c4W3, c4W4] using h

/- ## canvas-client.ts: listUpcoming -/

/-- Value of a tool argument that may be a JSON number or string. -/
inductive ArgVal where
  | num (n : Int)
  | str (s : String)
deriving DecidableEq, Repr

/-- One active course together with the outcome of its per course
assignment fetch inside listUpcoming; the error case models a thrown
fetch and is skipped by the aggregation loop. -/
structure CourseFetch where
  id : Int
  name : String
  assignments : Except Unit (List RawAssignment)

/-- Item of the listUpcoming output. -/
structure UpcomingItem where
  course_id : Int
  course_name : String
  assignment_id : Int
  name : String
  due_at : Option Int
  status : String
  points_possible : Int
deriving DecidableEq, Repr

/-- Three way status derivation of listUpcoming. -/
def itemStatus : Option NSubmission → String
  | none => "unsubmitted"
  | some s =>
    if s.missing then "missing"
    else if s.submitted_at.isSome then "submitted"
    else "unsubmitted"

/-- Construction of one output item of listUpcoming. -/
def mkUpItem (c : CourseFetch) (a : NAssignment) : UpcomingItem :=
  { course_id := c.id
    course_name := c.name
    assignment_id := a.id
    name := a.name
    due_at := a.due_at
    status := itemStatus a.submission_status
    points_possible := a.points_possible }

/-- The date range filter of listUpcoming: assignments without a due date
are skipped, an overdue one is kept only with includeOverdue, and
otherwise the due date must lie in the inclusive window. -/
def keepUpcoming (now limit : Int) (includeOverdue : Bool) (a : NAssignment) : Bool :=
  match a.due_at with
  | none => false
  | some d =>
    (includeOverdue && decide (d < now)) || (decide (now ≤ d) && decide (d ≤ limit))

/-- Sort comparator of listUpcoming, ascending by due date; every kept
item has a due date. -/
def upCmp (i j : UpcomingItem) : Int := i.due_at.getD 0 - j.due_at.getD 0

/-- Model of listUpcoming over the per course fetch outcomes: optional
course id restriction, per course aggregation skipping failed fetches,
window filter and ascending due date sort. -/
def listUpcoming (now days : Int) (includeOverdue : Bool)
    (courseIds : Option (List ArgVal)) (courses : List CourseFetch) : List UpcomingItem :=
  let targets :=
    match courseIds with
    | none => courses
    | some ids =>
      courses.filter (fun c => ids.contains (ArgVal.num c.id)
        || ids.contains (ArgVal.str (toString c.id)))
  let limit := now + days * 24 * 60 * 60 * 1000
  let collected := targets.flatMap (fun c =>
    match c.assignments with
    | .error _ => []
    | .ok raws =>
      ((listAssignments now true .all raws).filter
        (keepUpcoming now limit includeOverdue)).map (mkUpItem c))
  sortCmp upCmp collected

theorem mem_insertCmp (cmp : α → α → Int) (a x : α) (l : List α) :
    x ∈ insertCmp cmp a l ↔ x = a ∨ x ∈ l := by
  induction l with
  | nil => simp [insertCmp]
  | cons b bs ih =>
    by_cases h : cmp a b ≤ 0
    · simp [insertCmp, h]
    · simp [insertCmp, h, ih]
      tauto

theorem mem_sortCmp (cmp : α → α → Int) (x : α) (l : List α) :
    x ∈ sortCmp cmp l ↔ x ∈ l := by
  induction l with
  | nil => simp [sortCmp]
  | cons a rest ih =>
    simp [sortCmp, mem_insertCmp, ih]

theorem keepUpcoming_iff (now limit : Int) (io : Bool) (a : NAssignment) :
    keepUpcoming now limit io a = true ↔
      ∃ d, a.due_at = some d ∧
        ((io = true ∧ d < now) ∨ (now ≤ d ∧ d ≤ limit)) := by
  rcases hd : a.due_at with _ | d <;>
    simp [keepUpcoming, hd]

/-- C7: an assignment with a due date is kept by listUpcoming exactly
when it is overdue and includeOverdue is set, or its due date lies in the
closed window from now to now plus days times twenty four hours; the
window bound itself is included, one millisecond past it is excluded, and
an overdue assignment is dropped entirely when includeOverdue is false. -/
theorem listUpcoming_window_spec (now days : Int) (io : Bool)
    (courses : List CourseFetch) (x : UpcomingItem) :
    (x ∈ listUpcoming now days io none courses ↔
      ∃ c ∈ courses, ∃ raws, c.assignments = .ok raws ∧
        ∃ a ∈ listAssignments now true .all raws,
          (∃ d, a.due_at = some d ∧
            ((io = true ∧ d < now) ∨
              (now ≤ d ∧ d ≤ now + days * 24 * 60 * 60 * 1000))) ∧
          x = mkUpItem c a)
    ∧ (∀ c raw, 0 ≤ days → c.assignments = .ok [raw] →
        ((raw.due_at = some (now + days * 24 * 60 * 60 * 1000) →
          listUpcoming now days io none [c] =
            [mkUpItem c (normalizeAssignment raw)])
         ∧ (raw.due_at = some (now + days * 24 * 60 * 60 * 1000 + 1) →
          listUpcoming now days io none [c] = [])
         ∧ (∀ d, raw.due_at = some d → d < now →
          listUpcoming now days false none [c] = []))) := by
  constructor
  · unfold listUpcoming
    rw [mem_sortCmp]
    rw [List.mem_flatMap]
    constructor
    · rintro ⟨c, hc, hx⟩
      rcases ha : c.assignments with _ | raws
      · rw [ha] at hx
        simp at hx
      · rw [ha] at hx
        simp only [List.mem_map, List.mem_filter] at hx
        obtain ⟨a, ⟨hmem, hkeep⟩, hmk⟩ := hx
        exact ⟨c, hc, raws, ha,
          a, hmem, (keepUpcoming_iff _ _ _ a).mp hkeep, hmk.symm⟩
    · rintro ⟨c, hc, raws, ha, a, hmem, hwin, hx⟩
      refine ⟨c, hc, ?_⟩
      rw [ha]
      simp only [List.mem_map, List.mem_filter]
      exact ⟨a, ⟨hmem, (keepUpcoming_iff _ _ _ a).mpr hwin⟩, hx.symm⟩
  · intro c raw hdays ha
    have hD : 0 ≤ days * 24 * 60 * 60 * 1000 := by omega
    have hla : listAssignments now true .all [raw] = [normalizeAssignment raw] := by
      simp [listAssignments, filteredAssignments]
    have hdue : (normalizeAssignment raw).due_at = raw.due_at := rfl
    refine ⟨?_, ?_, ?_⟩
    · intro hd
      unfold listUpcoming
      simp only [List.flatMap_cons, List.flatMap_nil, ha, hla]
      have hkeep : keepUpcoming now (now + days * 24 * 60 * 60 * 1000) io
          (normalizeAssignment raw) = true := by
        rw [keepUpcoming_iff]
        exact ⟨now + days * 24 * 60 * 60 * 1000, by rw [hdue, hd], Or.inr ⟨by omega, by omega⟩⟩
      simp [hkeep, sortCmp, insertCmp]
    · intro hd
      unfold listUpcoming
      simp only [List.flatMap_cons, List.flatMap_nil, ha, hla]
      have hkeep : keepUpcoming now (now + days * 24 * 60 * 60 * 1000) io
          (normalizeAssignment raw) = false := by
        rw [← Bool.not_eq_true, keepUpcoming_iff]
        rintro ⟨d, hdd, hwin⟩
        rw [hdue, hd] at hdd
        injection hdd with hdd
        rcases hwin with ⟨_, hlt⟩ | ⟨_, hle⟩ <;> omega
      simp [hkeep, sortCmp]
    · intro d hd hlt
      unfold listUpcoming
      simp only [List.flatMap_cons, List.flatMap_nil, ha, hla]
      have hkeep : keepUpcoming now (now + days * 24 * 60 * 60 * 1000) false
          (normalizeAssignment raw) = false := by
        rw [← Bool.not_eq_true, keepUpcoming_iff]
        rintro ⟨d2, hdd, hwin⟩
        rw [hdue, hd] at hdd
        injection hdd with hdd
        rcases hwin with ⟨hfalse, _⟩ | ⟨hge, _⟩
        · exact Bool.false_ne_true hfalse
        · omega
      simp [hkeep, sortCmp]

/-- Raw assignment due exactly at the window bound, for the C7 witness. -/
def c7Raw : RawAssignment :=
  { id := 21
    name := "quiz"
    due_at := some 172800000
    unlock_at := none
    lock_at := none
    points_possible := some 5
    submission_types := []
    submission := none }

/-- Course fetch for the C7 witness. -/
def c7Course : CourseFetch := ⟨1, "Bio", .ok [c7Raw]⟩

/-- C7 witness: with now zero and a two day window, an assignment due
exactly at the bound is returned. -/
theorem listUpcoming_window_spec_witness :
    listUpcoming 0 2 true none [c7Course] =
      [mkUpItem c7Course (normalizeAssignment c7Raw)] :=
  ((listUpcoming_window_spec 0 2 true [c7Course]
      (mkUpItem c7Course (normalizeAssignment c7Raw))).2
    c7Course c7Raw (by decide) rfl).1 rfl

/- ## index.ts: Host header validation and security middleware -/

/-- The leading dotted quad of the Host header, as matched by the
unanchored digit pattern at the start of the string: four maximal
nonempty digit runs separated by single dots; anything may follow. -/
def leadingQuad (h : Str) : Option Str :=
  let d1 := h.takeWhile Char.isDigit
  let r1 := h.dropWhile Char.isDigit
  if d1.isEmpty then none
  else
    match r1 with
    | '.' :: t1 =>
      let d2 := t1.takeWhile Char.isDigit
      let r2 := t1.dropWhile Char.isDigit
      if d2.isEmpty then none
      else
        match r2 with
        | '.' :: t2 =>
          let d3 := t2.takeWhile Char.isDigit
          let r3 := t2.dropWhile Char.isDigit
          if d3.isEmpty then none
          else
            match r3 with
            | '.' :: t3 =>
              let d4 := t3.takeWhile Char.isDigit
              if d4.isEmpty then none
              else some (d1 ++ '.' :: (d2 ++ '.' :: (d3 ++ '.' :: d4)))
            | _ => none
        | _ => none
    | _ => none

/-- The pattern testing the second octet of a 172 address for the range
sixteen to thirty one, anchored at the start of the quad. -/
def is172Private (ip : Str) : Bool :=
  match ip with
  | '1' :: '7' :: '2' :: '.' :: a :: b :: '.' :: _ =>
    (a == '1' && '6' ≤ b && b ≤ '9')
    || (a == '2' && b.isDigit)
    || (a == '3' && (b == '0' || b == '1'))
  | _ => false

/-- Model of validateHost: loopback names with any port, a leading
private dotted quad, or a name ending in dot local bare or with the
configured port. -/
def validateHost (port : Nat) (host : Option Str) : Bool :=
  match host with
  | none => false
  | some h =>
    if (strL "localhost:").isPrefixOf h || h == strL "localhost"
        || (strL "127.0.0.1:").isPrefixOf h || h == strL "127.0.0.1"
        || (strL "0.0.0.0:").isPrefixOf h || h == strL "0.0.0.0" then true
    else
      let ipOk :=
        match leadingQuad h with
        | some ip =>
          (strL "192.168.").isPrefixOf ip || (strL "10.").isPrefixOf ip || is172Private ip
        | none => false
      if ipOk then true
      else (strL ".local").isSuffixOf h
        || (strL ".local:" ++ strL (toString port)).isSuffixOf h

/-- Outcome of a request against the middleware chain. -/
inductive ReqOutcome where
  | rejected (status : Nat)
  | handled (result : String)
deriving DecidableEq, Repr

/-- Numeric value of a digit run. -/
def digitsVal (s : Str) : Nat :=
  s.foldl (fun n c => n * 10 + (c.toNat - '0'.toNat)) 0

/-- Parse of an exact dotted quad IPv4 address with octets up to 255. -/
def parseIPv4 (s : Str) : Option (Nat × Nat × Nat × Nat) :=
  match List.splitOn '.' s with
  | [a, b, c, d] =>
    if !a.isEmpty && !b.isEmpty && !c.isEmpty && !d.isEmpty
        && a.all Char.isDigit && b.all Char.isDigit
        && c.all Char.isDigit && d.all Char.isDigit
        && digitsVal a ≤ 255 && digitsVal b ≤ 255
        && digitsVal c ≤ 255 && digitsVal d ≤ 255 then
      some (digitsVal a, digitsVal b, digitsVal c, digitsVal d)
    else none
  | _ => none

/-- Modelled from the spec: the set of hosts the claim says are accepted,
namely the three loopback names with any port, hosts that are an IPv4
address in one of the three private ranges optionally with a port, and
names ending in dot local optionally with a port. -/
def specHostAllowed (h : Str) : Bool :=
  let base := h.takeWhile (fun c => c != ':')
  base == strL "localhost" || base == strL "127.0.0.1" || base == strL "0.0.0.0"
  || (match parseIPv4 base with
      | some (o1, o2, _, _) =>
        o1 == 10 || (o1 == 172 && 16 ≤ o2 && o2 ≤ 31) || (o1 == 192 && o2 == 168)
      | none => false)
  || (strL ".local").isSuffixOf base

/- ## index.ts: bearer auth middleware -/

/-- Trim of leading and trailing whitespace, as the string trim method. -/
def jsTrim (s : Str) : Str :=
  ((s.dropWhile isJsWs).reverse.dropWhile isJsWs).reverse

/-- Case insensitive strip of a literal pattern from the front. -/
def stripCi (pat s : Str) : Option Str :=
  match pat, s with
  | [], rest => some rest
  | _ :: _, [] => none
  | p :: ps, c :: cs => if p.toLower == c.toLower then stripCi ps cs else none

/-- Line terminator class that the dot of a regex does not match. -/
def isLineTerm (c : Char) : Bool :=
  c == '\n' || c == '\r' || c.toNat == 0x2028 || c.toNat == 0x2029

/-- Backtracking of the greedy whitespace run: the capture is the suffix
after the longest whitespace count of at least one for which the
remainder is nonempty and free of line terminators. -/
def captureFrom (rest : Str) : Nat → Option Str
  | 0 => none
  | j + 1 =>
    let c := rest.drop (j + 1)
    if c.isEmpty = false && c.all (fun ch => !isLineTerm ch) then some c
    else captureFrom rest j

/-- The bearer pattern applied to the trimmed header: a case insensitive
bearer word, one or more whitespace characters, and a captured nonempty
remainder reaching the end of the string. -/
def bearerMatch (auth : Str) : Option Str :=
  match stripCi (strL "bearer") auth with
  | none => none
  | some rest => captureFrom rest (rest.takeWhile isJsWs).length

/-- UTF-8 encoding of one character, as the byte encoding of the node
Buffer the tokens are compared through. -/
def charUtf8 (c : Char) : List Nat :=
  let n := c.toNat
  if n < 0x80 then [n]
  else if n < 0x800 then [0xC0 + n / 64, 0x80 + n % 64]
  else if n < 0x10000 then [0xE0 + n / 4096, 0x80 + (n / 64) % 64, 0x80 + n % 64]
  else [0xF0 + n / 262144, 0x80 + (n / 4096) % 64, 0x80 + (n / 64) % 64, 0x80 + n % 64]

/-- Byte encoding of a token. -/
def utf8Bytes (s : Str) : List Nat := s.flatMap charUtf8

/-- Functional content of the constant time buffer comparison: it is only
invoked on buffers of equal length and decides bytewise equality. -/
def timingSafeEqual (a b : List Nat) : Bool := a == b

/-- Decision of the auth middleware. -/
inductive AuthOutcome where
  | unauthorized
  | proceed
deriving DecidableEq, Repr

/-- Model of mcpAuthMiddleware. The second component records whether the
byte content comparison was invoked, so the statements can express that a
length mismatch rejects before any content is compared. -/
def mcpAuthMiddleware (token : Str) (authHeader : Option Str) : AuthOutcome × Bool :=
  if token.isEmpty then (.proceed, false)
  else
    match authHeader with
    | none => (.unauthorized, false)
    | some raw =>
      match bearerMatch (jsTrim raw) with
      | none => (.unauthorized, false)
      | some cap =>
        let provided := utf8Bytes (jsTrim cap)
        let expected := utf8Bytes token
        if provided.length != expected.length then (.unauthorized, false)
        else if timingSafeEqual provided expected then (.proceed, true)
        else (.unauthorized, true)

/-- The middleware chain ahead of the MCP endpoint: host validation, then
origin validation when an origin header is present, then the optional
bearer check, and only then the dispatch. The origin predicate is a
parameter because its URL parsing is not the subject of any claim. -/
def handleMcpRequest (port : Nat) (validOrigin : Str → Bool) (authToken : Str)
    (host origin authHeader : Option Str) (dispatch : Unit → String) : ReqOutcome :=
  if validateHost port host = false then .rejected 403
  else if (match origin with | some o => !validOrigin o | none => false) = true then
    .rejected 403
  else
    match (mcpAuthMiddleware authToken authHeader).1 with
    | .unauthorized => .rejected 401
    | .proceed => .handled (dispatch ())

theorem isPrefixOf_exists (a : Str) : ∀ l : Str, a.isPrefixOf l = true ↔ ∃ t, a ++ t = l := by
  induction a with
  | nil =>
    intro l
    simp [List.isPrefixOf]
  | cons c cs ih =>
    intro l
    cases l with
    | nil => simp [List.isPrefixOf]
    | cons d ds =>
      simp [List.isPrefixOf, Bool.and_eq_true, beq_iff_eq, ih]

theorem isSuffixOf_exists (a l : Str) : a.isSuffixOf l = true ↔ ∃ t, t ++ a = l := by
  rw [List.isSuffixOf, isPrefixOf_exists]
  constructor
  · rintro ⟨t, ht⟩
    refine ⟨t.reverse, ?_⟩
    have hr := congrArg List.reverse ht
    simpa using hr
  · rintro ⟨t, ht⟩
    refine ⟨t.reverse, ?_⟩
    rw [← ht]
    simp

theorem colon_ex (base h : Str) :
    (∃ t, (base ++ [':']) ++ t = h) ↔ ∃ p, h = base ++ ':' :: p := by
  constructor
  · rintro ⟨t, ht⟩
    refine ⟨t, ?_⟩
    rw [← ht]
    simp
  · rintro ⟨p, hp⟩
    refine ⟨p, ?_⟩
    rw [hp]
    simp

theorem orE (a b : Bool) : (a || b) = true ↔ a = true ∨ b = true := by
  simp

theorem not_true_eq_false {b : Bool} (h : ¬ b = true) : b = false := by
  cases b
  · rfl
  · exact absurd rfl h

theorem charLe_iff_toNat (x y : Char) : x ≤ y ↔ x.toNat ≤ y.toNat := by
  rw [Char.le_def, UInt32.le_def]; rfl

theorem charEq_of_toNat (a b : Char) (h : a.toNat = b.toNat) : a = b :=
  Char.eq_of_val_eq (UInt32.toNat.inj h)

theorem isDigit_iff_toNat (c : Char) : c.isDigit = true ↔ 48 ≤ c.toNat ∧ c.toNat ≤ 57 := by
  simp [Char.isDigit, Char.toNat, UInt32.le_def]
  rfl

theorem takeWhile_digit_split (X : Str) : ∀ d : Str, (∀ c ∈ d, c.isDigit = true) →
    (d ++ '.' :: X).takeWhile Char.isDigit = d ∧
    (d ++ '.' :: X).dropWhile Char.isDigit = '.' :: X := by
  intro d
  induction d with
  | nil =>
    intro _
    have hdot : ('.' : Char).isDigit = false := by decide
    constructor
    · simp [List.takeWhile_cons, hdot]
    · simp [List.dropWhile_cons, hdot]
  | cons c cs ih =>
    intro hd
    have hc : c.isDigit = true := hd c (by simp)
    obtain ⟨ih1, ih2⟩ := ih (fun x hx => hd x (by simp [hx]))
    constructor
    · simp [List.takeWhile_cons, hc, ih1]
    · simp [List.dropWhile_cons, hc, ih2]

theorem run_dot_inj (d : Str) : ∀ (e X Y : Str), (∀ c ∈ d, c.isDigit = true) →
    (∀ c ∈ e, c.isDigit = true) → d ++ '.' :: X = e ++ '.' :: Y → d = e ∧ X = Y := by
  induction d with
  | nil =>
    intro e X Y _ he heq
    cases e with
    | nil => simpa using heq
    | cons c2 cs2 =>
      exfalso
      have hc : c2.isDigit = true := he c2 (by simp)
      simp only [List.nil_append, List.cons_append] at heq
      injection heq with h1 _
      rw [← h1] at hc
      exact absurd hc (by decide)
  | cons c cs ih =>
    intro e X Y hd he heq
    cases e with
    | nil =>
      exfalso
      have hc : c.isDigit = true := hd c (by simp)
      simp only [List.nil_append, List.cons_append] at heq
      injection heq with h1 _
      rw [h1] at hc
      exact absurd hc (by decide)
    | cons c2 cs2 =>
      simp only [List.cons_append] at heq
      injection heq with h1 h2
      obtain ⟨hde, hxy⟩ := ih cs2 X Y (fun x hx => hd x (by simp [hx]))
        (fun x hx => he x (by simp [hx])) h2
      exact ⟨by rw [h1, hde], hxy⟩

/-- C8 counterexample: the host check accepts a public name that merely
begins with a private looking dotted quad, which the claim places outside
the accepted set, and rejects a dot local name carrying a port other than
the configured one, which the claim places inside it. -/
theorem validateHost_counterexample :
    specHostAllowed (strL "10.0.0.1.evil.com") = false ∧
    validateHost 8080 (some (strL "10.0.0.1.evil.com")) = true ∧
    specHostAllowed (strL "pi.local:9999") = true ∧
    validateHost 8080 (some (strL "pi.local:9999")) = false := by
  refine ⟨?_, ?_, ?_, ?_⟩ <;> decide

theorem leadingQuad_some_decomp (h ip : Str) (hlq : leadingQuad h = some ip) :
    ∃ d1 d2 d3 d4 rest,
      h = d1 ++ '.' :: (d2 ++ '.' :: (d3 ++ '.' :: (d4 ++ rest))) ∧
      ip = d1 ++ '.' :: (d2 ++ '.' :: (d3 ++ '.' :: d4)) ∧
      d1 ≠ [] ∧ d2 ≠ [] ∧ d3 ≠ [] ∧ d4 ≠ [] ∧
      (∀ c ∈ d1, c.isDigit = true) ∧ (∀ c ∈ d2, c.isDigit = true) ∧
      (∀ c ∈ d3, c.isDigit = true) ∧ (∀ c ∈ d4, c.isDigit = true) := by
  simp only [leadingQuad] at hlq
  split at hlq
  · exact absurd hlq (by simp)
  · rename_i hne1
    split at hlq
    · rename_i t1 heq1
      split at hlq
      · exact absurd hlq (by simp)
      · rename_i hne2
        split at hlq
        · rename_i t2 heq2
          split at hlq
          · exact absurd hlq (by simp)
          · rename_i hne3
            split at hlq
            · rename_i t3 heq3
              split at hlq
              · exact absurd hlq (by simp)
              · rename_i hne4
                refine ⟨h.takeWhile Char.isDigit, t1.takeWhile Char.isDigit,
                  t2.takeWhile Char.isDigit, t3.takeWhile Char.isDigit,
                  t3.dropWhile Char.isDigit, ?_, ?_, ?_, ?_, ?_, ?_, ?_, ?_, ?_, ?_⟩
                · conv_lhs => rw [← List.takeWhile_append_dropWhile Char.isDigit h]
                  rw [heq1]
                  conv_lhs =>
                    rw [show t1 = t1.takeWhile Char.isDigit ++ t1.dropWhile Char.isDigit from
                      (List.takeWhile_append_dropWhile Char.isDigit t1).symm]
                  rw [heq2]
                  conv_lhs =>
                    rw [show t2 = t2.takeWhile Char.isDigit ++ t2.dropWhile Char.isDigit from
                      (List.takeWhile_append_dropWhile Char.isDigit t2).symm]
                  rw [heq3]
                  conv_lhs =>
                    rw [show t3 = t3.takeWhile Char.isDigit ++ t3.dropWhile Char.isDigit from
                      (List.takeWhile_append_dropWhile Char.isDigit t3).symm]
                · injection hlq with hlq2
                  exact hlq2.symm
                · intro hnil
                  exact hne1 (by rw [hnil]; rfl)
                · intro hnil
                  exact hne2 (by rw [hnil]; rfl)
                · intro hnil
                  exact hne3 (by rw [hnil]; rfl)
                · intro hnil
                  exact hne4 (by rw [hnil]; rfl)
                · exact fun c hc => List.mem_takeWhile_imp hc
                · exact fun c hc => List.mem_takeWhile_imp hc
                · exact fun c hc => List.mem_takeWhile_imp hc
                · exact fun c hc => List.mem_takeWhile_imp hc
            · exact absurd hlq (by simp)
        · exact absurd hlq (by simp)
    · exact absurd hlq (by simp)

theorem leadingQuad_of_decomp (d1 d2 d3 : Str) (c4 : Char) (w : Str)
    (h1d : ∀ c ∈ d1, c.isDigit = true) (h1n : d1 ≠ [])
    (h2d : ∀ c ∈ d2, c.isDigit = true) (h2n : d2 ≠ [])
    (h3d : ∀ c ∈ d3, c.isDigit = true) (h3n : d3 ≠ [])
    (hc4 : c4.isDigit = true) :
    leadingQuad (d1 ++ '.' :: (d2 ++ '.' :: (d3 ++ '.' :: (c4 :: w)))) =
      some (d1 ++ '.' :: (d2 ++ '.' :: (d3 ++ '.' :: (c4 :: w).takeWhile Char.isDigit))) := by
  have hE : ∀ d : Str, d ≠ [] → d.isEmpty = false := by
    intro d hd
    cases d with
    | nil => exact absurd rfl hd
    | cons a as => rfl
  obtain ⟨hs1t, hs1d⟩ := takeWhile_digit_split (d2 ++ '.' :: (d3 ++ '.' :: (c4 :: w))) d1 h1d
  obtain ⟨hs2t, hs2d⟩ := takeWhile_digit_split (d3 ++ '.' :: (c4 :: w)) d2 h2d
  obtain ⟨hs3t, hs3d⟩ := takeWhile_digit_split (c4 :: w) d3 h3d
  simp only [leadingQuad, hs1t, hs1d, hs2t, hs2d, hs3t, hs3d, hE d1 h1n, hE d2 h2n, hE d3 h3n,
    List.takeWhile_cons, hc4]
  have : (c4 :: w.takeWhile Char.isDigit).isEmpty = false := rfl
  simp [this, List.takeWhile_cons, hc4]

theorem is172Private_eq_true_iff (l : Str) :
    is172Private l = true ↔
      ∃ a b w, l = '1' :: '7' :: '2' :: '.' :: a :: b :: '.' :: w ∧
        ((a == '1' && '6' ≤ b && b ≤ '9')
          || (a == '2' && b.isDigit)
          || (a == '3' && (b == '0' || b == '1'))) = true := by
  constructor
  · intro hb
    unfold is172Private at hb
    split at hb
    · rename_i a b w
      exact ⟨a, b, w, rfl, hb⟩
    · exact absurd hb (by simp)
  · rintro ⟨a, b, w, rfl, hc⟩
    simpa [is172Private] using hc

theorem is172Cond_iff (a b : Char) :
    ((a == '1' && '6' ≤ b && b ≤ '9')
      || (a == '2' && b.isDigit)
      || (a == '3' && (b == '0' || b == '1'))) = true ↔
    (a.isDigit = true ∧ b.isDigit = true ∧
      16 ≤ (a.toNat - 48) * 10 + (b.toNat - 48) ∧
      (a.toNat - 48) * 10 + (b.toNat - 48) ≤ 31) := by
  simp only [Bool.or_eq_true, Bool.and_eq_true, beq_iff_eq, decide_eq_true_eq]
  constructor
  · rintro ((⟨⟨ha, hb1⟩, hb2⟩ | ⟨ha, hb⟩) | ⟨ha, hb⟩)
    · subst ha
      have h1 : (54 : Nat) ≤ b.toNat := (charLe_iff_toNat '6' b).mp hb1
      have h2 : b.toNat ≤ 57 := (charLe_iff_toNat b '9').mp hb2
      have ha49 : ('1' : Char).toNat = 49 := rfl
      refine ⟨by decide, (isDigit_iff_toNat b).mpr (by omega), ?_, ?_⟩
      · rw [ha49]; omega
      · rw [ha49]; omega
    · subst ha
      have hbn := (isDigit_iff_toNat b).mp hb
      have ha50 : ('2' : Char).toNat = 50 := rfl
      refine ⟨by decide, hb, ?_, ?_⟩
      · rw [ha50]; omega
      · rw [ha50]; omega
    · subst ha
      rcases hb with rfl | rfl
      · exact ⟨by decide, by decide, by decide, by decide⟩
      · exact ⟨by decide, by decide, by decide, by decide⟩
  · rintro ⟨had, hbd, hlo, hhi⟩
    have han := (isDigit_iff_toNat a).mp had
    have hbn := (isDigit_iff_toNat b).mp hbd
    have ha3 : a.toNat = 49 ∨ a.toNat = 50 ∨ a.toNat = 51 := by omega
    rcases ha3 with ha | ha | ha
    · refine Or.inl (Or.inl ⟨⟨charEq_of_toNat a '1' (by rw [ha]; rfl), ?_⟩, ?_⟩)
      · exact (charLe_iff_toNat '6' b).mpr (by show (54 : Nat) ≤ b.toNat; omega)
      · exact (charLe_iff_toNat b '9').mpr (by show b.toNat ≤ (57 : Nat); omega)
    · exact Or.inl (Or.inr ⟨charEq_of_toNat a '2' (by rw [ha]; rfl), hbd⟩)
    · refine Or.inr ⟨charEq_of_toNat a '3' (by rw [ha]; rfl), ?_⟩
      have hb2 : b.toNat = 48 ∨ b.toNat = 49 := by omega
      rcases hb2 with hb | hb
      · exact Or.inl (charEq_of_toNat b '0' (by rw [hb]; rfl))
      · exact Or.inr (charEq_of_toNat b '1' (by rw [hb]; rfl))

/-- A nonempty digit sequence, used by the host characterization. -/
def digitRun (s : Str) : Prop := s ≠ [] ∧ ∀ c ∈ s, c.isDigit = true

/-- Modelled from the amended claim: the three loopback names, bare or
followed by a colon and anything. -/
def amendedLoopback (h : Str) : Prop :=
  (h = strL "localhost" ∨ ∃ p, h = strL "localhost" ++ ':' :: p)
  ∨ (h = strL "127.0.0.1" ∨ ∃ p, h = strL "127.0.0.1" ++ ':' :: p)
  ∨ (h = strL "0.0.0.0" ∨ ∃ p, h = strL "0.0.0.0" ++ ':' :: p)

/-- Modelled from the amended claim: the leading characters of the host
form a dotted decimal quad whose prefix matches 10. or 192.168. or a 172
with a two digit second octet from sixteen to thirty one; octet values
are otherwise unchecked and arbitrary text may follow the quad. -/
def amendedQuad (h : Str) : Prop :=
  (∃ d2 d3 d4 rest, digitRun d2 ∧ digitRun d3 ∧ digitRun d4 ∧
    h = strL "10." ++ (d2 ++ '.' :: (d3 ++ '.' :: (d4 ++ rest))))
  ∨ (∃ d3 d4 rest, digitRun d3 ∧ digitRun d4 ∧
    h = strL "192.168." ++ (d3 ++ '.' :: (d4 ++ rest)))
  ∨ (∃ a b d3 d4 rest, a.isDigit = true ∧ b.isDigit = true ∧
      16 ≤ (a.toNat - 48) * 10 + (b.toNat - 48) ∧
      (a.toNat - 48) * 10 + (b.toNat - 48) ≤ 31 ∧
      digitRun d3 ∧ digitRun d4 ∧
      h = strL "172." ++ a :: b :: '.' :: (d3 ++ '.' :: (d4 ++ rest)))

/-- Modelled from the amended claim: a name ending in dot local, bare or
with the configured server port. -/
def amendedLocal (port : Nat) (h : Str) : Prop :=
  (∃ pre, h = pre ++ strL ".local")
  ∨ (∃ pre, h = pre ++ (strL ".local:" ++ strL (toString port)))

/-- Modelled from the amended claim: the complete set of accepted Host
header values. -/
def amendedHostAllowed (port : Nat) (h : Str) : Prop :=
  amendedLoopback h ∨ amendedQuad h ∨ amendedLocal port h

theorem loopbackCheck_iff (h : Str) :
    ((strL "localhost:").isPrefixOf h || h == strL "localhost"
      || (strL "127.0.0.1:").isPrefixOf h || h == strL "127.0.0.1"
      || (strL "0.0.0.0:").isPrefixOf h || h == strL "0.0.0.0") = true ↔
    amendedLoopback h := by
  have e1 : strL "localhost:" = strL "localhost" ++ [':'] := rfl
  have e2 : strL "127.0.0.1:" = strL "127.0.0.1" ++ [':'] := rfl
  have e3 : strL "0.0.0.0:" = strL "0.0.0.0" ++ [':'] := rfl
  rw [e1, e2, e3]
  simp only [Bool.or_eq_true, beq_iff_eq, isPrefixOf_exists, colon_ex]
  unfold amendedLoopback
  tauto

theorem localCheck_iff (port : Nat) (h : Str) :
    ((strL ".local").isSuffixOf h
      || (strL ".local:" ++ strL (toString port)).isSuffixOf h) = true ↔
    amendedLocal port h := by
  simp only [Bool.or_eq_true, isSuffixOf_exists]
  unfold amendedLocal
  constructor
  · rintro (⟨t, ht⟩ | ⟨t, ht⟩)
    · exact Or.inl ⟨t, ht.symm⟩
    · exact Or.inr ⟨t, ht.symm⟩
  · rintro (⟨p, hp⟩ | ⟨p, hp⟩)
    · exact Or.inl ⟨p, hp.symm⟩
    · exact Or.inr ⟨p, hp.symm⟩

theorem quadCheck_iff (h : Str) :
    (match leadingQuad h with
     | some ip =>
       (strL "192.168.").isPrefixOf ip || (strL "10.").isPrefixOf ip || is172Private ip
     | none => false) = true ↔ amendedQuad h := by
  constructor
  · intro hb
    rcases hlq : leadingQuad h with _ | ip
    · rw [hlq] at hb
      simp at hb
    · rw [hlq] at hb
      obtain ⟨d1, d2, d3, d4, rest, hh, hip, h1n, h2n, h3n, h4n, h1d, h2d, h3d, h4d⟩ :=
        leadingQuad_some_decomp h ip hlq
      rcases (orE _ _).mp hb with hb2 | h172
      · rcases (orE _ _).mp hb2 with h192 | h10
        · obtain ⟨t, ht⟩ := (isPrefixOf_exists _ _).mp h192
          rw [hip] at ht
          have ht2 : strL "192" ++ '.' :: (strL "168" ++ '.' :: t) =
              d1 ++ '.' :: (d2 ++ '.' :: (d3 ++ '.' :: d4)) := ht
          obtain ⟨hd1, hrest1⟩ := run_dot_inj (strL "192") d1 _ _ (by decide) h1d ht2
          obtain ⟨hd2, _⟩ := run_dot_inj (strL "168") d2 _ _ (by decide) h2d hrest1
          refine Or.inr (Or.inl ⟨d3, d4, rest, ⟨h3n, h3d⟩, ⟨h4n, h4d⟩, ?_⟩)
          rw [hh, ← hd1, ← hd2]
          rfl
        · obtain ⟨t, ht⟩ := (isPrefixOf_exists _ _).mp h10
          rw [hip] at ht
          have ht2 : strL "10" ++ '.' :: t =
              d1 ++ '.' :: (d2 ++ '.' :: (d3 ++ '.' :: d4)) := ht
          obtain ⟨hd1, _⟩ := run_dot_inj (strL "10") d1 _ _ (by decide) h1d ht2
          refine Or.inl ⟨d2, d3, d4, rest, ⟨h2n, h2d⟩, ⟨h3n, h3d⟩, ⟨h4n, h4d⟩, ?_⟩
          rw [hh, ← hd1]
          rfl
      · rw [hip] at h172
        obtain ⟨a, b, w, hshape, hcond⟩ := (is172Private_eq_true_iff _).mp h172
        have hstruct : d1 ++ '.' :: (d2 ++ '.' :: (d3 ++ '.' :: d4)) =
            strL "172" ++ '.' :: ([a, b] ++ '.' :: w) := hshape
        obtain ⟨hd1, hrest1⟩ := run_dot_inj d1 (strL "172") _ _ h1d (by decide) hstruct
        obtain ⟨had, hbd, hlo, hhi⟩ := (is172Cond_iff a b).mp hcond
        have hab : ∀ c ∈ [a, b], c.isDigit = true := by
          intro c hc
          simp only [List.mem_cons, List.not_mem_nil, or_false] at hc
          rcases hc with rfl | rfl
          · exact had
          · exact hbd
        obtain ⟨hd2, _⟩ := run_dot_inj d2 [a, b] _ _ h2d hab hrest1
        refine Or.inr (Or.inr ⟨a, b, d3, d4, rest, had, hbd, hlo, hhi,
          ⟨h3n, h3d⟩, ⟨h4n, h4d⟩, ?_⟩)
        rw [hh, hd1, hd2]
        rfl
  · intro hq
    rcases hq with ⟨d2, d3, d4, rest, ⟨h2n, h2d⟩, ⟨h3n, h3d⟩, ⟨h4n, h4d⟩, hh⟩ |
      ⟨d3, d4, rest, ⟨h3n, h3d⟩, ⟨h4n, h4d⟩, hh⟩ |
      ⟨a, b, d3, d4, rest, had, hbd, hlo, hhi, ⟨h3n, h3d⟩, ⟨h4n, h4d⟩, hh⟩
    · obtain ⟨c4, d4t, rfl⟩ : ∃ c4 d4t, d4 = c4 :: d4t := by
        cases d4 with
        | nil => exact absurd rfl h4n
        | cons x xs => exact ⟨x, xs, rfl⟩
      have hc4 : c4.isDigit = true := h4d c4 (by simp)
      have hsh : h = strL "10" ++ '.' :: (d2 ++ '.' :: (d3 ++ '.' :: (c4 :: (d4t ++ rest)))) := hh
      rw [hsh, leadingQuad_of_decomp (strL "10") d2 d3 c4 (d4t ++ rest)
        (by decide) (by decide) h2d h2n h3d h3n hc4]
      refine (orE _ _).mpr (Or.inl ((orE _ _).mpr (Or.inr ?_)))
      exact (isPrefixOf_exists _ _).mpr
        ⟨d2 ++ '.' :: (d3 ++ '.' :: (c4 :: (d4t ++ rest)).takeWhile Char.isDigit), rfl⟩
    · obtain ⟨c4, d4t, rfl⟩ : ∃ c4 d4t, d4 = c4 :: d4t := by
        cases d4 with
        | nil => exact absurd rfl h4n
        | cons x xs => exact ⟨x, xs, rfl⟩
      have hc4 : c4.isDigit = true := h4d c4 (by simp)
      have hsh : h = strL "192" ++ '.' ::
          (strL "168" ++ '.' :: (d3 ++ '.' :: (c4 :: (d4t ++ rest)))) := hh
      rw [hsh, leadingQuad_of_decomp (strL "192") (strL "168") d3 c4 (d4t ++ rest)
        (by decide) (by decide) (by decide) (by decide) h3d h3n hc4]
      refine (orE _ _).mpr (Or.inl ((orE _ _).mpr (Or.inl ?_)))
      exact (isPrefixOf_exists _ _).mpr
        ⟨d3 ++ '.' :: (c4 :: (d4t ++ rest)).takeWhile Char.isDigit, rfl⟩
    · obtain ⟨c4, d4t, rfl⟩ : ∃ c4 d4t, d4 = c4 :: d4t := by
        cases d4 with
        | nil => exact absurd rfl h4n
        | cons x xs => exact ⟨x, xs, rfl⟩
      have hc4 : c4.isDigit = true := h4d c4 (by simp)
      have hab : ∀ c ∈ [a, b], c.isDigit = true := by
        intro c hc
        simp only [List.mem_cons, List.not_mem_nil, or_false] at hc
        rcases hc with rfl | rfl
        · exact had
        · exact hbd
      have hsh : h = strL "172" ++ '.' ::
          ([a, b] ++ '.' :: (d3 ++ '.' :: (c4 :: (d4t ++ rest)))) := hh
      rw [hsh, leadingQuad_of_decomp (strL "172") [a, b] d3 c4 (d4t ++ rest)
        (by decide) (by decide) hab (by simp) h3d h3n hc4]
      refine (orE _ _).mpr (Or.inr ?_)
      refine (is172Private_eq_true_iff _).mpr
        ⟨a, b, d3 ++ '.' :: (c4 :: (d4t ++ rest)).takeWhile Char.isDigit, rfl,
          (is172Cond_iff a b).mpr ⟨had, hbd, hlo, hhi⟩⟩

theorem validateHost_some_eq (port : Nat) (h : Str) :
    validateHost port (some h) =
      (((strL "localhost:").isPrefixOf h || h == strL "localhost"
        || (strL "127.0.0.1:").isPrefixOf h || h == strL "127.0.0.1"
        || (strL "0.0.0.0:").isPrefixOf h || h == strL "0.0.0.0")
       || (match leadingQuad h with
           | some ip =>
             (strL "192.168.").isPrefixOf ip || (strL "10.").isPrefixOf ip
             || is172Private ip
           | none => false)
       || ((strL ".local").isSuffixOf h
           || (strL ".local:" ++ strL (toString port)).isSuffixOf h)) := by
  simp only [validateHost]
  by_cases hA : ((strL "localhost:").isPrefixOf h || h == strL "localhost"
      || (strL "127.0.0.1:").isPrefixOf h || h == strL "127.0.0.1"
      || (strL "0.0.0.0:").isPrefixOf h || h == strL "0.0.0.0") = true
  · simp [hA]
  · have hA2 : ((strL "localhost:").isPrefixOf h || h == strL "localhost"
        || (strL "127.0.0.1:").isPrefixOf h || h == strL "127.0.0.1"
        || (strL "0.0.0.0:").isPrefixOf h || h == strL "0.0.0.0") = false :=
      not_true_eq_false hA
    by_cases hB : (match leadingQuad h with
        | some ip =>
          (strL "192.168.").isPrefixOf ip || (strL "10.").isPrefixOf ip || is172Private ip
        | none => false) = true
    · simp [hA2, hB]
    · have hB2 : (match leadingQuad h with
          | some ip =>
            (strL "192.168.").isPrefixOf ip || (strL "10.").isPrefixOf ip || is172Private ip
          | none => false) = false :=
        not_true_eq_false hB
      simp [hA2, hB2]

/-- C8 amended: for every Host header value, the check accepts it exactly
when it is one of the three loopback names bare or with any port, or its
leading characters form a dotted digit quad whose prefix matches 10. or
192.168. or 172.16 through 31. with octet values unchecked and arbitrary
text allowed after the quad, or it ends in dot local bare or with the
configured server port; an absent Host header is rejected, and every
rejected host is answered with status 403 by the middleware chain before
any dispatch runs, whatever the origin, token, auth header and dispatch
function are. -/
theorem validateHost_amended (port : Nat) (h : Str) :
    (validateHost port (some h) = true ↔ amendedHostAllowed port h)
    ∧ validateHost port none = false
    ∧ (∀ (vo : Str → Bool) (tok : Str) (origin authHeader : Option Str)
        (dispatch : Unit → String),
        validateHost port (some h) = false →
        handleMcpRequest port vo tok (some h) origin authHeader dispatch =
          .rejected 403) := by
  refine ⟨?_, rfl, ?_⟩
  · rw [validateHost_some_eq]
    unfold amendedHostAllowed
    constructor
    · intro hv
      rcases (orE _ _).mp hv with hv2 | hC
      · rcases (orE _ _).mp hv2 with hA | hB
        · exact Or.inl ((loopbackCheck_iff h).mp hA)
        · exact Or.inr (Or.inl ((quadCheck_iff h).mp hB))
      · exact Or.inr (Or.inr ((localCheck_iff port h).mp hC))
    · intro hs
      rcases hs with hs | hs | hs
      · exact (orE _ _).mpr
          (Or.inl ((orE _ _).mpr (Or.inl ((loopbackCheck_iff h).mpr hs))))
      · exact (orE _ _).mpr
          (Or.inl ((orE _ _).mpr (Or.inr ((quadCheck_iff h).mpr hs))))
      · exact (orE _ _).mpr (Or.inr ((localCheck_iff port h).mpr hs))
  · intro vo tok origin authHeader dispatch hfail
    simp [handleMcpRequest, hfail]

/-- C8 witness: the characterization applied at evil.com, which is
rejected with 403 before dispatch, and at a public name with a private
looking leading quad, which the characterization proves accepted. -/
theorem validateHost_amended_witness :
    handleMcpRequest 8080 (fun _ => true) [] (some (strL "evil.com")) none none
      (fun _ => "ok") = .rejected 403 ∧
    amendedHostAllowed 8080 (strL "10.0.0.1.evil.com") :=
  ⟨(validateHost_amended 8080 (strL "evil.com")).2.2 (fun _ => true) [] none none
      (fun _ => "ok") (by decide),
   (validateHost_amended 8080 (strL "10.0.0.1.evil.com")).1.mp (by decide)⟩

/-- C9: with a configured token, a missing or malformed authorization
header is rejected with no comparison; a presented token whose byte
length differs from the configured one is rejected before any byte
content comparison; and with equal lengths the comparison primitive runs
and the request proceeds exactly when the byte contents agree. -/
theorem mcpAuth_spec (token : Str) (htok : token ≠ []) :
    (mcpAuthMiddleware token none = (.unauthorized, false))
    ∧ (∀ raw, bearerMatch (jsTrim raw) = none →
        mcpAuthMiddleware token (some raw) = (.unauthorized, false))
    ∧ (∀ raw cap, bearerMatch (jsTrim raw) = some cap →
        ((utf8Bytes (jsTrim cap)).length ≠ (utf8Bytes token).length →
          mcpAuthMiddleware token (some raw) = (.unauthorized, false))
        ∧ ((utf8Bytes (jsTrim cap)).length = (utf8Bytes token).length →
          (mcpAuthMiddleware token (some raw)).2 = true
          ∧ ((mcpAuthMiddleware token (some raw)).1 = .proceed ↔
              utf8Bytes (jsTrim cap) = utf8Bytes token))) := by
  have hne : token.isEmpty = false := by
    cases token with
    | nil => exact absurd rfl htok
    | cons c cs => rfl
  refine ⟨?_, ?_, ?_⟩
  · simp [mcpAuthMiddleware, hne]
  · intro raw hbm
    simp [mcpAuthMiddleware, hne, hbm]
  · intro raw cap hbm
    constructor
    · intro hlen
      have hbne : ((utf8Bytes (jsTrim cap)).length != (utf8Bytes token).length) = true := by
        simpa using hlen
      simp [mcpAuthMiddleware, hne, hbm, hbne]
    · intro hlen
      have hbeq : ((utf8Bytes (jsTrim cap)).length != (utf8Bytes token).length) = false := by
        simpa using hlen
      rcases hts : timingSafeEqual (utf8Bytes (jsTrim cap)) (utf8Bytes token) with _ | _
      · have hval : mcpAuthMiddleware token (some raw) = (.unauthorized, true) := by
          simp [mcpAuthMiddleware, hne, hbm, hbeq, hts]
        rw [hval]
        refine ⟨rfl, ?_, ?_⟩
        · intro h
          exact absurd h (by simp)
        · intro he
          exfalso
          rw [timingSafeEqual, he] at hts
          simp at hts
      · have hval : mcpAuthMiddleware token (some raw) = (.proceed, true) := by
          simp [mcpAuthMiddleware, hne, hbm, hbeq, hts]
        rw [hval]
        refine ⟨rfl, ?_, fun _ => rfl⟩
        intro _
        exact beq_iff_eq.mp (by simpa [timingSafeEqual] using hts)

/-- C9 witness: with the token secret, a three byte presented token is
rejected without comparison, the right token proceeds after a comparison,
and a wrong token of equal length is rejected after a comparison. -/
theorem mcpAuth_spec_witness :
    mcpAuthMiddleware (strL "secret") (some (strL "Bearer abc")) = (.unauthorized, false) ∧
    (mcpAuthMiddleware (strL "secret") (some (strL "Bearer secret"))).1 = .proceed ∧
    (mcpAuthMiddleware (strL "secret") (some (strL "Bearer hunter"))).2 = true := by
  have h := mcpAuth_spec (strL "secret") (by decide)
  refine ⟨?_, ?_, ?_⟩
  · exact (h.2.2 (strL "Bearer abc") (strL "abc") (by decide)).1 (by decide)
  · exact (((h.2.2 (strL "Bearer secret") (strL "secret") (by decide)).2 (by decide)).2).mpr
      (by decide)
  · exact ((h.2.2 (strL "Bearer hunter") (strL "hunter") (by decide)).2 (by decide)).1

/- ## tools.ts: handleToolCall argument validation -/

/-- Arguments record passed to a tool call; absent JSON keys are none. -/
structure ToolArgs where
  course_id : Option ArgVal := none
  assignment_id : Option ArgVal := none
  include_future : Option Bool := none
  status_filter : Option String := none
  days : Option Int := none
  include_overdue : Option Bool := none
  course_ids : Option (List ArgVal) := none

/-- Result of a tool call: a serialized response or a thrown error with a
code and a message. -/
inductive ToolCallResult where
  | response (text : String)
  | thrown (code : String) (msg : String)
deriving DecidableEq, Repr

/-- Abstract Canvas client as seen by the dispatcher: each operation
yields the serialized text of its result. The dispatcher is verified for
every client, so nothing about the client body is assumed. -/
structure ClientSim where
  listCoursesText : String
  listAssignmentsText : ArgVal → Bool → String → String
  getSubmissionStatusText : ArgVal → ArgVal → String
  getCourseGradesText : ArgVal → String
  listUpcomingText : Int → Bool → Option (List ArgVal) → String

/-- JavaScript truthiness of an id argument value. -/
def argValTruthy : ArgVal → Bool
  | .num n => n != 0
  | .str s => s != ""

/-- Truthiness of a possibly absent argument. -/
def argTruthy : Option ArgVal → Bool
  | some v => argValTruthy v
  | none => false

/-- Model of handleToolCall. The second component records whether an
upstream client call was made, so the statements can express that a
validation failure reaches no upstream request. -/
def handleToolCall (toolName : String) (args : ToolArgs) (client : ClientSim) :
    ToolCallResult × Bool :=
  if toolName == "list_courses" then (.response client.listCoursesText, true)
  else if toolName == "list_assignments" then
    let includeFuture := args.include_future.getD true
    let statusFilter :=
      match args.status_filter with
      | some s => if s == "" then "all" else s
      | none => "all"
    if argTruthy args.course_id = false then
      (.thrown "invalid_arguments" "course_id is required", false)
    else
      match args.course_id with
      | some v => (.response (client.listAssignmentsText v includeFuture statusFilter), true)
      | none => (.thrown "invalid_arguments" "course_id is required", false)
  else if toolName == "get_submission_status" then
    if argTruthy args.course_id = false then
      (.thrown "invalid_arguments" "course_id is required", false)
    else if argTruthy args.assignment_id = false then
      (.thrown "invalid_arguments" "assignment_id is required", false)
    else
      match args.course_id, args.assignment_id with
      | some cv, some av => (.response (client.getSubmissionStatusText cv av), true)
      | _, _ => (.thrown "invalid_arguments" "course_id is required", false)
  else if toolName == "get_course_grades" then
    if argTruthy args.course_id = false then
      (.thrown "invalid_arguments" "course_id is required", false)
    else
      match args.course_id with
      | some v => (.response (client.getCourseGradesText v), true)
      | none => (.thrown "invalid_arguments" "course_id is required", false)
  else if toolName == "list_upcoming" then
    (.response (client.listUpcomingText (args.days.getD 14)
      (args.include_overdue.getD true) args.course_ids), true)
  else (.thrown "invalid_tool" ("Unknown tool: " ++ toolName), false)

/-- C10: the three id validated tools test their ids by truthiness, so a
course id equal to the number zero or the empty string behaves exactly
like an absent one: the call throws the invalid arguments error and no
upstream request is made; the same holds for the assignment id of the
submission status tool once its course id is truthy. -/
theorem handleToolCall_truthiness (args : ToolArgs) (client : ClientSim)
    (h0 : args.course_id = some (.num 0) ∨ args.course_id = some (.str "") ∨
      args.course_id = none) :
    handleToolCall "list_assignments" args client =
      (.thrown "invalid_arguments" "course_id is required", false)
    ∧ handleToolCall "get_submission_status" args client =
      (.thrown "invalid_arguments" "course_id is required", false)
    ∧ handleToolCall "get_course_grades" args client =
      (.thrown "invalid_arguments" "course_id is required", false)
    ∧ (∀ args2 : ToolArgs, argTruthy args2.course_id = true →
        (args2.assignment_id = some (.num 0) ∨ args2.assignment_id = some (.str "") ∨
          args2.assignment_id = none) →
        handleToolCall "get_submission_status" args2 client =
          (.thrown "invalid_arguments" "assignment_id is required", false)) := by
  have hfalse : argTruthy args.course_id = false := by
    rcases h0 with h | h | h <;> rw [h] <;> rfl
  refine ⟨?_, ?_, ?_, ?_⟩
  · simp [handleToolCall, hfalse]
  · simp [handleToolCall, hfalse]
  · simp [handleToolCall, hfalse]
  · intro args2 hct ha0
    have hafalse : argTruthy args2.assignment_id = false := by
      rcases ha0 with h | h | h <;> rw [h] <;> rfl
    simp [handleToolCall, hct, hafalse]

/-- Arguments with a numeric course id of zero, for the C10 witness. -/
def c10Args : ToolArgs := { course_id := some (.num 0) }

/-- Arguments with a valid course id and an empty string assignment id,
for the C10 witness. -/
def c10Args2 : ToolArgs := { course_id := some (.num 42), assignment_id := some (.str "") }

/-- Trivial concrete client for the C10 witness. -/
def c10Client : ClientSim :=
  { listCoursesText := ""
    listAssignmentsText := fun _ _ _ => ""
    getSubmissionStatusText := fun _ _ => ""
    getCourseGradesText := fun _ => ""
    listUpcomingText := fun _ _ _ => "" }

/-- C10 witness: a zero course id throws the invalid arguments error with
no upstream call on all three tools, and an empty assignment id does the
same on the submission status tool. -/
theorem handleToolCall_truthiness_witness :
    handleToolCall "get_course_grades" c10Args c10Client =
      (.thrown "invalid_arguments" "course_id is required", false)
    ∧ handleToolCall "get_submission_status" c10Args2 c10Client =
      (.thrown "invalid_arguments" "assignment_id is required", false) := by
  have h := handleToolCall_truthiness c10Args c10Client (Or.inl rfl)
  exact ⟨h.2.2.1, h.2.2.2 c10Args2 (by decide) (Or.inr (Or.inl rfl))⟩

end CanvasMCP
